import Mathlib

/-!
Verification of the PD-EEG repository (notebooks `eeg_to_images.ipynb` and
`EEG_1D_CNN.ipynb`).

The numerical routines of the notebooks are embedded shallowly:

* the coordinate transforms `cart2sph`, `pol2cart`, `azim_proj` are embedded
  over the real numbers, with `math.atan2` modelled by the argument of the
  complex number `x + y*I` (which has the same value and the same range
  `(-pi, pi]`);
* `gen_images` is embedded over an arbitrary linear ordered field, with the
  external collaborators (SciPy's `griddata`, scikit-learn's `scale`, the
  randomized `augment_EEG`) passed as function parameters.  A float `NaN` is
  modelled by `Option.none`; `griddata` interpolation with
  `fill_value = np.nan` therefore returns an `Option` value.  Python
  exceptions are modelled by `Except.error`;
* the stratified K-fold split of `EEG_1D_CNN.ipynb` embeds scikit-learn's
  `StratifiedKFold._make_test_folds` with the RNG shuffle passed as a
  function parameter, and the training / prediction / scalar-metric
  computations of the fold loop passed as oracles.
-/

/-! ## Coordinate transforms (`eeg_to_images.ipynb`, cell 3) -/

/-- Model of `math.atan2 y x`: the argument of the complex number `x + y*I`,
which lies in `(-pi, pi]` and agrees with `atan2` everywhere (both take the
value `0` at the origin). -/
noncomputable def atan2 (y x : ℝ) : ℝ := Complex.arg ⟨x, y⟩

/-- `cart2sph(x, y, z)` from the notebook: Cartesian to spherical coordinates,
returning `(radius, elevation, azimuth)`. -/
noncomputable def cart2sph (x y z : ℝ) : ℝ × ℝ × ℝ :=
  (Real.sqrt ((x ^ 2 + y ^ 2) + z ^ 2),
   atan2 z (Real.sqrt (x ^ 2 + y ^ 2)),
   atan2 y x)

/-- `pol2cart(theta, rho)` from the notebook: polar to Cartesian coordinates. -/
noncomputable def pol2cart (theta rho : ℝ) : ℝ × ℝ :=
  (rho * Real.cos theta, rho * Real.sin theta)

/-- `azim_proj(pos)` from the notebook: azimuthal equidistant projection of a
3D point, `pol2cart(az, pi/2 - elev)` where `(r, elev, az) = cart2sph pos`. -/
noncomputable def azim_proj (pos : ℝ × ℝ × ℝ) : ℝ × ℝ :=
  pol2cart (cart2sph pos.1 pos.2.1 pos.2.2).2.2
    (Real.pi / 2 - (cart2sph pos.1 pos.2.1 pos.2.2).2.1)

/-! ## `gen_images` (`eeg_to_images.ipynb`, cell 5)

The matrix `features` is a list of rows; a float that may be `NaN` is an
`Option` value.  The external collaborators are parameters:
`gd` models `scipy.interpolate.griddata(locs, values, point, method='cubic',
fill_value=np.nan)` (returning `none` for `NaN`, e.g. outside the convex
hull of `locs`), `scaleFn` models `sklearn.preprocessing.scale` applied to
the flattened non-`NaN` entries of one colour band, and `augFn` models the
randomized `augment_EEG`.  Python exceptions are `Except.error`:
`locs.shape[0] = 0` makes `features.shape[1] % nElectrodes` raise
`ZeroDivisionError`, a failing `assert` raises `AssertionError`, and the
`edgeless` branch iterates `range(n_colors)` over the float
`n_colors = features.shape[1] / nElectrodes`, which raises `TypeError`. -/

/-- Minimum of a list (Python `min`), with a default for the empty list,
which the callers never hit. -/
def listMin {α : Type} [LinearOrder α] (l : List α) (d : α) : α :=
  match l with
  | [] => d
  | x :: xs => xs.foldl min x

/-- Maximum of a list (Python `max`), with a default for the empty list. -/
def listMax {α : Type} [LinearOrder α] (l : List α) (d : α) : α :=
  match l with
  | [] => d
  | x :: xs => xs.foldl max x

/-- The `i`-th of `n` grid points from `lo` to `hi`, as produced along one
axis by `np.mgrid[lo:hi:n*1j]`. -/
def linspace {α : Type} [LinearOrderedField α] (lo hi : α) (n i : ℕ) : α :=
  if n ≤ 1 then lo else lo + (hi - lo) * (i : α) / ((n - 1 : ℕ) : α)

/-- NumPy boolean-mask assignment `a[~isnan(a)] = vals`: walk the flattened
band and replace the non-`NaN` entries, in order, by the entries of `vals`. -/
def fillSome {α : Type} : List (Option α) → List α → List (Option α)
  | [], _ => []
  | none :: rest, vs => none :: fillSome rest vs
  | some a :: rest, [] => some a :: fillSome rest []
  | some _ :: rest, v :: vs => some v :: fillSome rest vs

/-- Reshape a flat list (C order) back into an `ns × n × n` tensor. -/
def unflatten3 {β : Type} (ns n : ℕ) (l : List β) (d : β) : List (List (List β)) :=
  (List.range ns).map (fun i =>
    (List.range n).map (fun gx =>
      (List.range n).map (fun gy => l.getD ((i * n + gx) * n + gy) d)))

/-- The pure body of `gen_images` on the non-raising path (`edgeless=False`,
assertion passed): slice the feature matrix into colour bands, optionally
augment, interpolate each sample of each band over the `n × n` grid spanning
the bounding box of the electrode locations, optionally normalize each band
over its non-`NaN` entries, replace `NaN` by `0` (`np.nan_to_num`), and swap
the first two axes to obtain `[samples, colors, W, H]`. -/
def gen_images_core {α : Type} [LinearOrderedField α]
    (gd : List (α × α) → List α → α × α → Option α)
    (scaleFn : List α → List α)
    (augFn : List (List α) → List (List α))
    (locs : List (α × α)) (features : List (List α))
    (n_gridpoints : ℕ) (normalize augment : Bool) :
    List (List (List (List (Option α)))) :=
  let nElectrodes := locs.length
  let n_colors := (features.headD []).length / nElectrodes
  let bands0 := (List.range n_colors).map (fun c =>
    features.map (fun row => (row.drop (c * nElectrodes)).take nElectrodes))
  let bands := if augment then bands0.map augFn else bands0
  let n_samples := features.length
  let xs := locs.map Prod.fst
  let ys := locs.map Prod.snd
  let interp := (List.range n_colors).map (fun c =>
    (List.range n_samples).map (fun i =>
      (List.range n_gridpoints).map (fun gx =>
        (List.range n_gridpoints).map (fun gy =>
          gd locs ((bands.getD c []).getD i [])
            (linspace (listMin xs 0) (listMax xs 0) n_gridpoints gx,
             linspace (listMin ys 0) (listMax ys 0) n_gridpoints gy)))))
  let bandsFinal := interp.map (fun band =>
    let band2 := if normalize
      then unflatten3 n_samples n_gridpoints
        (fillSome (band.flatten.flatten) (scaleFn ((band.flatten.flatten).filterMap id))) none
      else band
    band2.map (fun plane => plane.map (fun row => row.map (fun v => some (v.getD 0)))))
  (List.range n_samples).map (fun i => bandsFinal.map (fun band => band.getD i []))

/-- `gen_images(locs, features, n_gridpoints, normalize, augment, ..., edgeless)`:
the guard structure of the source, with the raising paths made explicit.  The
`assert features.shape[1] % nElectrodes == 0` raises `ZeroDivisionError` when
there are no electrodes and `AssertionError` when the feature count is not a
multiple of the electrode count; with `edgeless=True` the loop
`for c in range(n_colors)` receives the float `n_colors` and raises
`TypeError` before any image is produced. -/
def gen_images {α : Type} [LinearOrderedField α]
    (gd : List (α × α) → List α → α × α → Option α)
    (scaleFn : List α → List α)
    (augFn : List (List α) → List (List α))
    (locs : List (α × α)) (features : List (List α))
    (n_gridpoints : ℕ) (normalize augment edgeless : Bool) :
    Except String (List (List (List (List (Option α))))) :=
  if locs.length = 0 then Except.error "ZeroDivisionError"
  else if (features.headD []).length % locs.length ≠ 0 then Except.error "AssertionError"
  else if edgeless then Except.error "TypeError"
  else Except.ok (gen_images_core gd scaleFn augFn locs features n_gridpoints normalize augment)

/-- Entry `t[i][c][gx][gy]` of a rank-4 tensor represented as nested lists. -/
def entry4 {β : Type} (t : List (List (List (List β)))) (i c gx gy : ℕ) (d : β) : β :=
  (((t.getD i []).getD c []).getD gx []).getD gy d

/-- The tensor `t` has shape `[a, b, c, d]`. -/
def shape4 {β : Type} (t : List (List (List (List β)))) (a b c d : ℕ) : Prop :=
  t.length = a ∧ ∀ i, i < a →
    (t.getD i []).length = b ∧ ∀ j, j < b →
      ((t.getD i []).getD j []).length = c ∧ ∀ x, x < c →
        (((t.getD i []).getD j []).getD x []).length = d

/-- A `griddata` oracle for the counterexample to the literal reading of the
shape/content claim: on the electrode set `locsCE` (a right triangle), cubic
interpolation with `fill_value=np.nan` yields `NaN` at the grid corner
`(2, 2)`, which lies outside the convex hull, and (for the counterexample's
purposes) the first electrode's value elsewhere. -/
def gdNanCorner : List (ℚ × ℚ) → List ℚ → ℚ × ℚ → Option ℚ :=
  fun _ vals p => if p.1 = 2 ∧ p.2 = 2 then none else some (vals.headD 0)

/-- Electrode locations for the counterexample: a right triangle whose
bounding box corner `(2, 2)` is outside its convex hull. -/
def locsCE : List (ℚ × ℚ) := [(0, 0), (2, 0), (0, 2)]

/-- One sample with one feature per electrode, for the counterexample. -/
def featsCE : List (List ℚ) := [[7, 8, 9]]

/-- The tensor actually returned by `gen_images` on the counterexample input:
the `NaN` at grid point `(2, 2)` has been replaced by `0`. -/
def tCE : List (List (List (List (Option ℚ)))) := [[[[some 7, some 7], [some 7, some 0]]]]

/-! ## Stratified 5-fold training loop (`EEG_1D_CNN.ipynb`, cells 10-11)

`StratifiedKFold(n_splits=5, shuffle=True, random_state=100).split(features,
labels)` is embedded by scikit-learn's `_make_test_folds` algorithm: encode
each label by its index among the sorted distinct classes, sort the encoded
labels (`y_order`), give fold `i` the class histogram of every `k`-th sorted
label starting at `i` (`allocation`), build the per-class fold-id list
`np.arange(k).repeat(allocation[:, cls])`, shuffle it (the Mersenne-Twister
shuffle is the function parameter `shuf`), and scatter it over the sample
positions of that class.  `split` yields, for `m = 0..4`, train indices
(fold id `≠ m`) and test indices (fold id `= m`), both ascending.  Model
training, prediction and the scalar sklearn metrics of the fold loop are
oracle parameters. -/

/-- Helper for `strided`: pick an element when the countdown hits `0`, then
restart the countdown at `k - 1`. -/
def stridedAux : ℕ → ℕ → List ℕ → List ℕ
  | _, _, [] => []
  | 0, k, x :: xs => x :: stridedAux (k - 1) k xs
  | c + 1, k, _ :: xs => stridedAux c k xs

/-- `l[0::k]`: every `k`-th element of `l`, starting at the head. -/
def strided (k : ℕ) (l : List ℕ) : List ℕ := stridedAux 0 k l

/-- `np.unique(y)`: the sorted distinct labels. -/
def classesOf (y : List ℕ) : List ℕ := List.insertionSort (· ≤ ·) y.dedup

/-- `np.searchsorted(classes, y)`: each label replaced by its index among
the sorted distinct classes. -/
def encodeLabels (y : List ℕ) : List ℕ := y.map (fun v => (classesOf y).indexOf v)

/-- `allocation[i][cls]` of `_make_test_folds`: the multiplicity of class
`cls` in `y_order[i::k]`. -/
def allocCount (yOrder : List ℕ) (k i cls : ℕ) : ℕ := (strided k (yOrder.drop i)).count cls

/-- `np.arange(k).repeat(allocation[:, cls])`: the fold ids handed to the
samples of class `cls`, before the shuffle. -/
def foldsForClass (k : ℕ) (yOrder : List ℕ) (cls : ℕ) : List ℕ :=
  ((List.range k).map (fun i => List.replicate (allocCount yOrder k i cls) i)).flatten

/-- `test_folds[y_encoded == cls] = folds_for_class`: walk the encoded
labels, and at each position of class `cls` take the next value of `vs`. -/
def maskAssign (cls : ℕ) : List ℕ → List ℕ → List ℕ → List ℕ
  | [], _, _ => []
  | _ :: _, [], _ => []
  | e :: es, t :: ts, vs =>
    if e = cls then vs.headD t :: maskAssign cls es ts vs.tail
    else t :: maskAssign cls es ts vs

/-- `_make_test_folds(X, y)` of `StratifiedKFold(n_splits=k, shuffle=True)`,
with the RNG shuffle passed as `shuf`. -/
def makeTestFolds (k : ℕ) (shuf : ℕ → List ℕ → List ℕ) (y : List ℕ) : List ℕ :=
  (List.range (classesOf y).length).foldl
    (fun tf cls =>
      maskAssign cls (encodeLabels y) tf
        (shuf cls (foldsForClass k (List.insertionSort (· ≤ ·) (encodeLabels y)) cls)))
    (List.replicate y.length 0)

/-- The test indices of fold `m`: positions whose fold id is `m`, ascending. -/
def testIdx (tf : List ℕ) (m : ℕ) : List ℕ :=
  (List.range tf.length).filter (fun j => tf.getD j 0 == m)

/-- The train indices of fold `m`: positions whose fold id differs from `m`. -/
def trainIdx (tf : List ℕ) (m : ℕ) : List ℕ :=
  (List.range tf.length).filter (fun j => !(tf.getD j 0 == m))

/-- NumPy fancy indexing `l[idx]` for an index list with in-range entries. -/
def selectIdx {β : Type} (l : List β) (idx : List ℕ) : List β :=
  idx.filterMap (fun j => l[j]?)

/-- `sklearn.metrics.confusion_matrix(t, p, labels=labelVals)`: entry
`(a, b)` counts the samples with true label `labelVals[a]` and predicted
label `labelVals[b]` (pairs outside `labelVals` are dropped). -/
def confusionMatrix (labelVals : List ℕ) (t p : List ℕ) : List (List ℚ) :=
  labelVals.map (fun a => labelVals.map (fun b =>
    (((t.zip p).filter (fun tp => tp.1 == a && tp.2 == b)).length : ℚ)))

/-- `cm / cm.sum(axis=1, keepdims=True)`: divide each row by its sum. -/
def rowNormalize (mat : List (List ℚ)) : List (List ℚ) :=
  mat.map (fun row => row.map (fun x => x / row.sum))

/-- Elementwise sum of two matrices. -/
def matAdd (a b : List (List ℚ)) : List (List ℚ) :=
  List.zipWith (List.zipWith (· + ·)) a b

/-- `np.mean(ms, axis=0)`: elementwise mean of a list of matrices. -/
def matMean (ms : List (List (List ℚ))) : List (List ℚ) :=
  match ms with
  | [] => []
  | mfirst :: rest =>
    (rest.foldl matAdd mfirst).map (fun row => row.map (fun x => x / (ms.length : ℚ)))

/-- The per-fold quantities recorded by the training loop of cell 11. -/
structure FoldResult where
  testSet : List ℕ
  trainSet : List ℕ
  cm : List (List ℚ)
  accM : ℚ
  precM : ℚ
  recM : ℚ
  f1M : ℚ
  f1W : ℚ

/-- Default `FoldResult`, used as the `getD` fallback. -/
def emptyFold : FoldResult := ⟨[], [], [], 0, 0, 0, 0, 0⟩

/-- One iteration of the `for train, test in kfold.split(features, labels)`
loop: train on the train-indexed data, predict the test-indexed features,
and compute the row-normalized confusion matrix and the five scalar metrics
from the test labels and those predictions. -/
def foldResultAt {F M : Type}
    (trainFn : List F → List ℕ → M) (predictFn : M → F → ℕ)
    (accFn precFn recFn f1mFn f1wFn : List ℕ → List ℕ → ℚ)
    (shuf : ℕ → List ℕ → List ℕ)
    (features : List F) (labels : List ℕ) (m : ℕ) : FoldResult :=
  let tf := makeTestFolds 5 shuf labels
  let test := testIdx tf m
  let train := trainIdx tf m
  let model := trainFn (selectIdx features train) (selectIdx labels train)
  let preds := (selectIdx features test).map (predictFn model)
  let t := selectIdx labels test
  ⟨test, train, rowNormalize (confusionMatrix [0, 1] t preds),
    accFn t preds, precFn t preds, recFn t preds, f1mFn t preds, f1wFn t preds⟩

/-- The whole 5-fold loop of cell 11. -/
def runKFold {F M : Type}
    (trainFn : List F → List ℕ → M) (predictFn : M → F → ℕ)
    (accFn precFn recFn f1mFn f1wFn : List ℕ → List ℕ → ℚ)
    (shuf : ℕ → List ℕ → List ℕ)
    (features : List F) (labels : List ℕ) : List FoldResult :=
  (List.range 5).map
    (foldResultAt trainFn predictFn accFn precFn recFn f1mFn f1wFn shuf features labels)

/-- `conf_mat = np.mean(cm_list, axis=0)` of the visualisation cell. -/
def kfoldConfMat {F M : Type}
    (trainFn : List F → List ℕ → M) (predictFn : M → F → ℕ)
    (accFn precFn recFn f1mFn f1wFn : List ℕ → List ℕ → ℚ)
    (shuf : ℕ → List ℕ → List ℕ)
    (features : List F) (labels : List ℕ) : List (List ℚ) :=
  matMean ((runKFold trainFn predictFn accFn precFn recFn f1mFn f1wFn
    shuf features labels).map FoldResult.cm)

/-- Concrete labels for the witnesses: ten samples, two balanced classes. -/
def wLabels : List ℕ := [0, 1, 0, 1, 0, 1, 0, 1, 0, 1]

/-- Concrete features for the witnesses. -/
def wFeatures : List ℕ := List.range 10

/-! ## Data shuffle (`EEG_1D_CNN.ipynb`, cell 4) and `create_model` (cell 6) -/

/-- The transform step of the data cell: `rand_order = np.arange(n)` shuffled
in place (the shuffled permutation is the parameter `perm`) indexes both
`features` and `labels`, and `class_num = np.size(np.unique(labels))`.
Returns the shuffled features, the shuffled labels and `class_num`. -/
def shuffleData {F : Type} [Inhabited F] (perm : List ℕ) (features : List F)
    (labels : List ℕ) : List F × List ℕ × ℕ :=
  let f := perm.map (fun j => features.getD j default)
  let l := perm.map (fun j => labels.getD j 0)
  (f, l, l.dedup.length)

/-- A Keras layer as added by `create_model`:
`conv1d filters kernel_size padding activation kernel_initializer`,
`avgPool1d pool_size strides padding`,
`dense units kernel_initializer activation`. -/
inductive KLayer where
  | conv1d : ℕ → ℕ → String → String → Option String → KLayer
  | avgPool1d : ℕ → ℕ → String → KLayer
  | flatten : KLayer
  | batchNorm : KLayer
  | dense : ℕ → Option String → Option String → KLayer
  | dropout : ℚ → KLayer
  | activation : String → KLayer

/-- `nb_filters` of the model-parameter cell. -/
def nb_filters : List ℕ := [16, 32, 32, 64, 128]

/-- `kernel_size` of the model-parameter cell. -/
def kernel_size : ℕ := 3

/-- `pool_size` of the model-parameter cell. -/
def pool_size : ℕ := 2

/-- `stride_size` of the model-parameter cell. -/
def stride_size : ℕ := 2

/-- `padding` of the model-parameter cell. -/
def padding : String := "same"

/-- `dense_layer_neuron_num` of the model-parameter cell. -/
def dense_layer_neuron_num : ℕ := 128

/-- `create_model(init_mode, activation, dropout_rate, optimizer, learn_rate)`:
the sequence of `model.add(...)` calls, and the loss the model is compiled
with (`None` when the optimizer matches no branch of the `if`/`elif` chain,
in which case the source returns the model uncompiled). -/
def create_model (init_mode activation : String) (dropout_rate : ℚ)
    (optimizer : String) (learn_rate : ℚ) (class_num : ℕ) :
    List KLayer × Option String :=
  let model : List KLayer := []
  let model := model ++ [KLayer.conv1d (nb_filters.getD 0 0) kernel_size padding activation none]
  let model := model ++ [KLayer.avgPool1d pool_size stride_size padding]
  let model := model ++ [KLayer.conv1d (nb_filters.getD 1 0) kernel_size padding activation (some init_mode)]
  let model := model ++ [KLayer.avgPool1d pool_size stride_size padding]
  let model := model ++ [KLayer.conv1d (nb_filters.getD 2 0) kernel_size padding activation (some init_mode)]
  let model := model ++ [KLayer.avgPool1d pool_size stride_size padding]
  let model := model ++ [KLayer.flatten]
  let model := model ++ [KLayer.batchNorm]
  let model := model ++ [KLayer.dense dense_layer_neuron_num (some init_mode) (some activation)]
  let model := model ++ [KLayer.dropout dropout_rate]
  let model := model ++ [KLayer.dense class_num none none]
  let model := model ++ [KLayer.activation "softmax"]
  let loss : Option String :=
    if optimizer = "SGD" then some "binary_crossentropy"
    else if optimizer = "Adam" then some "categorical_crossentropy"
    else if optimizer = "RMSprop" then some "binary_crossentropy"
    else none
  (model, loss)

/-- The softmax function computed by the model's final `Activation` layer. -/
noncomputable def softmax (n : ℕ) (v : Fin n → ℝ) : Fin n → ℝ :=
  fun i => Real.exp (v i) / ∑ j, Real.exp (v j)

/-! ## The image-generation pipeline (`eeg_to_images.ipynb`, main loop)

The `__main__` cell loads the electrode locations and the spectral feature
file, projects each 3D electrode with `azim_proj`, and for each matrix name
in the fixed list reads the features from `matContent`, deletes the key,
computes `gen_images(locs_2d, features, 128, normalize=True)` and stores the
result under `matrix + "_img"`; the following cell pickles `matContent`.
The stage order is recorded as an event trace. -/

/-- Pipeline events: loading the `.mat` files, generating the images of one
matrix, and saving the resulting content. -/
inductive PEvent where
  | load : PEvent
  | gen : String → PEvent
  | save : PEvent

/-- A value of `matContent`: a feature matrix or a generated image tensor. -/
inductive MatValue (α : Type) where
  | mat : List (List α) → MatValue α
  | img : List (List (List (List (Option α)))) → MatValue α

/-- The fixed list `matrices` of the main loop. -/
def matList : List String :=
  ["full_feat", "pd_feat", "nc_feat", "E1_feat", "E2_feat", "E3_feat",
   "E4_feat", "E5_feat", "E6_feat"]

/-- The `for matrix in matrices` loop: look up the features, delete the key,
generate the images, store them under `matrix + "_img"`, and record the
event; a raised exception aborts the loop. -/
def processMats {α : Type}
    (gi : List (List α) → Except String (List (List (List (List (Option α)))))) :
    List String → (String → Option (MatValue α)) → List PEvent →
      List PEvent × Except String (String → Option (MatValue α))
  | [], content, tr => (tr, Except.ok content)
  | m :: rest, content, tr =>
    match content m with
    | some (MatValue.mat f) =>
      match gi f with
      | Except.ok imgs =>
        processMats gi rest
          (fun kk => if kk = m ++ "_img" then some (MatValue.img imgs)
            else if kk = m then none else content kk)
          (tr ++ [PEvent.gen m])
      | Except.error e => (tr, Except.error e)
    | _ => (tr, Except.error "KeyError")

/-- The whole pipeline: load, project `locs_3d` to `locs_2d` with
`azim_proj`, generate the images of the nine matrices in order with
`gen_images(locs_2d, features, 128, normalize=True)`, then save. -/
noncomputable def runPipeline
    (gd : List (ℝ × ℝ) → List ℝ → ℝ × ℝ → Option ℝ)
    (scaleFn : List ℝ → List ℝ)
    (locs3d : List (ℝ × ℝ × ℝ)) (content : String → Option (MatValue ℝ)) :
    List PEvent × Except String (List (ℝ × ℝ) × (String → Option (MatValue ℝ))) :=
  let locs2d := locs3d.map azim_proj
  match processMats (fun f => gen_images gd scaleFn id locs2d f 128 true false false)
      matList content [PEvent.load] with
  | (tr, Except.ok c) => (tr ++ [PEvent.save], Except.ok (locs2d, c))
  | (tr, Except.error e) => (tr, Except.error e)

/-- Concrete loaded content for the pipeline witness: every matrix name maps
to a one-by-one feature matrix. -/
noncomputable def wContent : String → Option (MatValue ℝ) :=
  fun k => if k ∈ matList then some (MatValue.mat [[1]]) else none

/-- Concrete electrode location for the pipeline witness. -/
noncomputable def wLocs3d : List (ℝ × ℝ × ℝ) := [(0, 0, 1)]

/-! ## Theorems for claims C1 and C8 -/

lemma atan2_mem_Ioc (y x : ℝ) : atan2 y x ∈ Set.Ioc (-Real.pi) Real.pi :=
  Complex.arg_mem_Ioc _

lemma abs_atan2_le_pi_div_two (y x : ℝ) (hx : 0 ≤ x) : |atan2 y x| ≤ Real.pi / 2 := by
  unfold atan2
  exact Complex.abs_arg_le_pi_div_two_iff.mpr hx

lemma atan2_zero_zero : atan2 0 0 = 0 := by
  unfold atan2
  have h : (⟨0, 0⟩ : ℂ) = 0 := Complex.ext rfl rfl
  rw [h, Complex.arg_zero]

lemma mk_eq_real_mul (c x y : ℝ) : (⟨c * x, c * y⟩ : ℂ) = (c : ℂ) * ⟨x, y⟩ := by
  apply Complex.ext <;> simp [Complex.mul_re, Complex.mul_im]

lemma atan2_smul_pos (c y x : ℝ) (hc : 0 < c) : atan2 (c * y) (c * x) = atan2 y x := by
  unfold atan2
  rw [mk_eq_real_mul, Complex.arg_real_mul _ hc]

lemma atan2_polar (theta rho : ℝ) (hrho : 0 < rho)
    (htheta : theta ∈ Set.Ioc (-Real.pi) Real.pi) :
    atan2 (rho * Real.sin theta) (rho * Real.cos theta) = theta := by
  unfold atan2
  rw [mk_eq_real_mul]
  rw [Complex.arg_real_mul _ hrho]
  have h : (⟨Real.cos theta, Real.sin theta⟩ : ℂ)
      = Complex.cos theta + Complex.sin theta * Complex.I := by
    apply Complex.ext <;>
      simp [Complex.cos_ofReal_re, Complex.sin_ofReal_re, Complex.cos_ofReal_im,
        Complex.sin_ofReal_im]
  rw [h]
  exact Complex.arg_cos_add_sin_mul_I htheta

lemma sqrt_polar_dist (theta rho : ℝ) (hrho : 0 ≤ rho) :
    Real.sqrt ((rho * Real.cos theta) ^ 2 + (rho * Real.sin theta) ^ 2) = rho := by
  have h : (rho * Real.cos theta) ^ 2 + (rho * Real.sin theta) ^ 2
      = rho ^ 2 * (Real.sin theta ^ 2 + Real.cos theta ^ 2) := by ring
  rw [h, Real.sin_sq_add_cos_sq, mul_one, Real.sqrt_sq hrho]

/-- C1: for every 3D electrode position `(x, y, z)`, `azim_proj` returns
`((pi/2 - elev) * cos az, (pi/2 - elev) * sin az)` where
`elev = atan2 z (sqrt (x^2+y^2))` and `az = atan2 y x` as computed by
`cart2sph`; the projected point's distance from the origin equals the
colatitude `pi/2 - elev`, and its angle about the origin equals the
azimuth `az`. -/
theorem azim_proj_correct (x y z : ℝ) :
    azim_proj (x, y, z) =
      ((Real.pi / 2 - atan2 z (Real.sqrt (x ^ 2 + y ^ 2))) * Real.cos (atan2 y x),
       (Real.pi / 2 - atan2 z (Real.sqrt (x ^ 2 + y ^ 2))) * Real.sin (atan2 y x))
    ∧ Real.sqrt ((azim_proj (x, y, z)).1 ^ 2 + (azim_proj (x, y, z)).2 ^ 2)
        = Real.pi / 2 - atan2 z (Real.sqrt (x ^ 2 + y ^ 2))
    ∧ atan2 (azim_proj (x, y, z)).2 (azim_proj (x, y, z)).1 = atan2 y x := by
  have hform : azim_proj (x, y, z) =
      ((Real.pi / 2 - atan2 z (Real.sqrt (x ^ 2 + y ^ 2))) * Real.cos (atan2 y x),
       (Real.pi / 2 - atan2 z (Real.sqrt (x ^ 2 + y ^ 2))) * Real.sin (atan2 y x)) := rfl
  set elev := atan2 z (Real.sqrt (x ^ 2 + y ^ 2)) with helev
  set az := atan2 y x with haz
  have helevle : elev ≤ Real.pi / 2 := by
    have := abs_atan2_le_pi_div_two z (Real.sqrt (x ^ 2 + y ^ 2)) (Real.sqrt_nonneg _)
    rw [← helev] at this
    exact (abs_le.mp this).2
  have hrho : 0 ≤ Real.pi / 2 - elev := by linarith
  refine ⟨hform, ?_, ?_⟩
  · rw [hform]
    exact sqrt_polar_dist az _ hrho
  · rw [hform]
    rcases lt_or_eq_of_le hrho with hpos | hzero
    · exact atan2_polar az _ hpos (atan2_mem_Ioc y x)
    · rw [← hzero]
      simp only [zero_mul]
      rw [atan2_zero_zero]
      -- here `pi/2 - elev = 0`, i.e. the elevation is `pi/2`, which forces
      -- `sqrt (x^2 + y^2) = 0` and hence `x = y = 0`, so the azimuth is `0`.
      have helevq : elev = Real.pi / 2 := by linarith
      have hre : Real.sqrt (x ^ 2 + y ^ 2) = 0 ∧ 0 < z := by
        have := Complex.arg_eq_pi_div_two_iff.mp helevq
        simpa using this
      have hx2y2 : x ^ 2 + y ^ 2 = 0 := by
        have hnn : 0 ≤ x ^ 2 + y ^ 2 := by positivity
        exact (Real.sqrt_eq_zero hnn).mp hre.1
      have hx : x = 0 := by nlinarith [sq_nonneg x, sq_nonneg y]
      have hy : y = 0 := by nlinarith [sq_nonneg x, sq_nonneg y]
      rw [haz, hx, hy, atan2_zero_zero]

lemma sqrt_sum_sq_smul (c x y : ℝ) (hc : 0 ≤ c) :
    Real.sqrt ((c * x) ^ 2 + (c * y) ^ 2) = c * Real.sqrt (x ^ 2 + y ^ 2) := by
  have h : (c * x) ^ 2 + (c * y) ^ 2 = c ^ 2 * (x ^ 2 + y ^ 2) := by ring
  rw [h, Real.sqrt_mul (sq_nonneg c), Real.sqrt_sq hc]

/-- C8: `azim_proj` is invariant under positive scaling of its input: for
every 3D point `pos` that is not the origin and every `c > 0`,
`azim_proj (c * pos) = azim_proj pos`, because the radius returned by
`cart2sph` is discarded while elevation and azimuth are unchanged by the
scaling. -/
theorem azim_proj_scale_invariant (x y z c : ℝ) (hc : 0 < c)
    (_hpos : (x, y, z) ≠ ((0 : ℝ), (0 : ℝ), (0 : ℝ))) :
    azim_proj (c * x, c * y, c * z) = azim_proj (x, y, z) := by
  unfold azim_proj cart2sph pol2cart
  simp only
  rw [sqrt_sum_sq_smul c x y (le_of_lt hc), atan2_smul_pos c y x hc,
    atan2_smul_pos c z (Real.sqrt (x ^ 2 + y ^ 2)) hc]

/-- Witness for C8: the scale invariance applied at the concrete point
`(1, 2, 3)` with factor `c = 2`. -/
theorem azim_proj_scale_invariant_witness :
    azim_proj (2 * 1, 2 * 2, 2 * 3) = azim_proj (1, 2, 3) :=
  azim_proj_scale_invariant 1 2 3 2 (by norm_num) (by norm_num)

/-! ## Theorems about `gen_images` (claims C2, C4, C7) -/

lemma getD_range_map {β : Type} (f : ℕ → β) (m i : ℕ) (h : i < m) (d : β) :
    ((List.range m).map f).getD i d = f i := by
  simp [List.getElem?_range, h]

lemma getD_map_of_lt {β γ : Type} (f : β → γ) (l : List β) (i : ℕ)
    (h : i < l.length) (d : β) (d' : γ) :
    (l.map f).getD i d' = f (l.getD i d) := by
  simp [List.getElem?_eq_getElem, h]

/-- C4: calling `gen_images` with `edgeless=True` never returns a value:
on every input it raises, and on every input that reaches the edgeless
branch (nonempty electrode list, feature count divisible by the electrode
count) the raised exception is the `TypeError` from iterating
`range(n_colors)` over the float `n_colors`. -/
theorem gen_images_edgeless_raises {α : Type} [LinearOrderedField α]
    (gd : List (α × α) → List α → α × α → Option α)
    (scaleFn : List α → List α) (augFn : List (List α) → List (List α))
    (locs : List (α × α)) (features : List (List α))
    (n : ℕ) (norm aug : Bool) :
    (∃ e, gen_images gd scaleFn augFn locs features n norm aug true = Except.error e)
    ∧ (locs ≠ [] → (features.headD []).length % locs.length = 0 →
        gen_images gd scaleFn augFn locs features n norm aug true
          = Except.error "TypeError") := by
  unfold gen_images
  constructor
  · by_cases h0 : locs.length = 0
    · exact ⟨"ZeroDivisionError", by rw [if_pos h0]⟩
    · by_cases h1 : (features.headD []).length % locs.length ≠ 0
      · exact ⟨"AssertionError", by rw [if_neg h0, if_pos h1]⟩
      · exact ⟨"TypeError", by rw [if_neg h0, if_neg h1]; rfl⟩
  · intro hne hmod
    have h0 : ¬ locs.length = 0 := by simpa [List.length_eq_zero] using hne
    rw [if_neg h0, if_neg (by simpa using hmod)]
    rfl

/-- Witness for C4: the `TypeError` branch hit on a concrete valid-shape
input. -/
theorem gen_images_edgeless_raises_witness :
    gen_images gdNanCorner id id locsCE featsCE 2 false false true
      = Except.error "TypeError" :=
  (gen_images_edgeless_raises gdNanCorner id id locsCE featsCE 2 false false).2
    (by decide) (by decide)

lemma gen_images_eq_ok {α : Type} [LinearOrderedField α]
    (gd : List (α × α) → List α → α × α → Option α)
    (scaleFn : List α → List α) (augFn : List (List α) → List (List α))
    (locs : List (α × α)) (features : List (List α))
    (n : ℕ) (norm aug : Bool)
    (hne : locs ≠ []) (hmod : (features.headD []).length % locs.length = 0) :
    gen_images gd scaleFn augFn locs features n norm aug false
      = Except.ok (gen_images_core gd scaleFn augFn locs features n norm aug) := by
  unfold gen_images
  rw [if_neg (by simpa [List.length_eq_zero] using hne), if_neg (by simpa using hmod)]
  rfl

lemma gen_images_core_entry_nonorm {α : Type} [LinearOrderedField α]
    (gd : List (α × α) → List α → α × α → Option α)
    (scaleFn : List α → List α) (augFn : List (List α) → List (List α))
    (locs : List (α × α)) (features : List (List α))
    (n k i c gx gy : ℕ)
    (hne : locs ≠ [])
    (hcols : ∀ r ∈ features, r.length = k * locs.length)
    (hi : i < features.length) (hc : c < k) (hgx : gx < n) (hgy : gy < n) :
    entry4 (gen_images_core gd scaleFn augFn locs features n false false) i c gx gy none
      = some ((gd locs (((features.getD i []).drop (c * locs.length)).take locs.length)
          (linspace (listMin (locs.map Prod.fst) 0) (listMax (locs.map Prod.fst) 0) n gx,
           linspace (listMin (locs.map Prod.snd) 0) (listMax (locs.map Prod.snd) 0) n gy)).getD 0) := by
  have hne' : 0 < locs.length := List.length_pos.mpr hne
  cases features with
  | nil => simp at hi
  | cons r rs =>
    have hrlen : r.length = k * locs.length := hcols r (by simp)
    have hcolors : ((r :: rs).headD []).length / locs.length = k := by
      rw [List.headD_cons, hrlen]
      exact Nat.mul_div_cancel k hne'
    have hi' : i < rs.length + 1 := by simpa using hi
    simp only [gen_images_core, hcolors, entry4, Bool.false_eq_true, if_false]
    simp [List.getElem?_range, hi, hi', hc, hgx, hgy]
    cases i with
    | zero => simp
    | succ j => simp

lemma headD_mod_of_cols {α : Type} (locs : List (α × α)) (features : List (List α)) (k : ℕ)
    (hcols : ∀ r ∈ features, r.length = k * locs.length) :
    (features.headD []).length % locs.length = 0 := by
  cases features with
  | nil => simp
  | cons r rs =>
    rw [List.headD_cons, hcols r (by simp)]
    exact Nat.mul_mod_left k locs.length

lemma gen_images_core_shape {α : Type} [LinearOrderedField α]
    (gd : List (α × α) → List α → α × α → Option α)
    (scaleFn : List α → List α) (augFn : List (List α) → List (List α))
    (locs : List (α × α)) (features : List (List α)) (n k : ℕ) (normalize : Bool)
    (hne : locs ≠ [])
    (hcols : ∀ r ∈ features, r.length = k * locs.length) :
    shape4 (gen_images_core gd scaleFn augFn locs features n normalize false)
      features.length k n n := by
  have hne' : 0 < locs.length := List.length_pos.mpr hne
  cases features with
  | nil =>
    cases normalize <;> simp [gen_images_core, shape4]
  | cons r rs =>
    have hrlen : r.length = k * locs.length := hcols r (by simp)
    have hcolors : ((r :: rs).headD []).length / locs.length = k := by
      rw [List.headD_cons, hrlen]
      exact Nat.mul_div_cancel k hne'
    have hcolors2 : r.length / locs.length = k := by simpa using hcolors
    refine ⟨by simp [gen_images_core], ?_⟩
    intro i hi
    have hi' : i < rs.length + 1 := by simpa using hi
    refine ⟨?_, ?_⟩
    · cases normalize <;>
        simp [gen_images_core, hcolors2, List.getElem?_range, hi', unflatten3]
    intro j hj
    refine ⟨?_, ?_⟩
    · cases normalize <;>
        simp [gen_images_core, hcolors2, List.getElem?_range, hi', hj, unflatten3]
    intro x hx
    cases normalize <;>
      simp [gen_images_core, hcolors2, List.getElem?_range, hi', hj, hx, unflatten3]

lemma gen_images_core_entry_isSome {α : Type} [LinearOrderedField α]
    (gd : List (α × α) → List α → α × α → Option α)
    (scaleFn : List α → List α) (augFn : List (List α) → List (List α))
    (locs : List (α × α)) (features : List (List α))
    (n k i c gx gy : ℕ) (normalize : Bool)
    (hne : locs ≠ [])
    (hcols : ∀ r ∈ features, r.length = k * locs.length)
    (hi : i < features.length) (hc : c < k) (hgx : gx < n) (hgy : gy < n) :
    (entry4 (gen_images_core gd scaleFn augFn locs features n normalize false)
      i c gx gy none).isSome := by
  have hne' : 0 < locs.length := List.length_pos.mpr hne
  cases features with
  | nil => simp at hi
  | cons r rs =>
    have hrlen : r.length = k * locs.length := hcols r (by simp)
    have hcolors : ((r :: rs).headD []).length / locs.length = k := by
      rw [List.headD_cons, hrlen]
      exact Nat.mul_div_cancel k hne'
    have hcolors2 : r.length / locs.length = k := by simpa using hcolors
    have hi' : i < rs.length + 1 := by simpa using hi
    cases normalize <;>
      simp [gen_images_core, hcolors2, entry4, unflatten3, List.getElem?_range,
        hi, hi', hc, hgx, hgy]

lemma linspace_span {α : Type} [LinearOrderedField α] (lo hi : α) (n : ℕ) (h : 2 ≤ n) :
    linspace lo hi n 0 = lo ∧ linspace lo hi n (n - 1) = hi := by
  unfold linspace
  have h1 : ¬ (n ≤ 1) := by omega
  rw [if_neg h1, if_neg h1]
  have hcast : ((n - 1 : ℕ) : α) ≠ 0 := Nat.cast_ne_zero.mpr (by omega)
  constructor
  · simp
  · rw [mul_div_assoc, div_self hcast, mul_one]
    ring

/-- Counterexample to C2 as literally stated: on a right-triangle electrode
set, the grid point `(2, 2)` of the `2 × 2` bounding-box grid lies outside
the convex hull, so the cubic `griddata` interpolation there is `NaN`
(`fill_value=np.nan`), while the tensor returned by `gen_images` holds `0`
there (after `np.nan_to_num`); the returned entry therefore differs from
the interpolation value. -/
theorem gen_images_content_counterexample :
    gen_images gdNanCorner id id locsCE featsCE 2 false false false = Except.ok tCE
    ∧ linspace (listMin (locsCE.map Prod.fst) 0) (listMax (locsCE.map Prod.fst) 0) 2 1 = 2
    ∧ linspace (listMin (locsCE.map Prod.snd) 0) (listMax (locsCE.map Prod.snd) 0) 2 1 = 2
    ∧ gdNanCorner locsCE [7, 8, 9] (2, 2) = none
    ∧ entry4 tCE 0 0 1 1 none ≠ gdNanCorner locsCE [7, 8, 9] (2, 2) := by
  have hxs : locsCE.map Prod.fst = [0, 2, 0] := rfl
  have hys : locsCE.map Prod.snd = [0, 0, 2] := rfl
  have hminx : listMin [(0 : ℚ), 2, 0] 0 = 0 := by decide
  have hmaxx : listMax [(0 : ℚ), 2, 0] 0 = 2 := by decide
  have hminy : listMin [(0 : ℚ), 0, 2] 0 = 0 := by decide
  have hmaxy : listMax [(0 : ℚ), 0, 2] 0 = 2 := by decide
  have hls0 : linspace (0 : ℚ) 2 2 0 = 0 := by norm_num [linspace]
  have hls1 : linspace (0 : ℚ) 2 2 1 = 2 := by norm_num [linspace]
  have hrange2 : List.range 2 = [0, 1] := rfl
  have hrange1 : List.range 1 = [0] := rfl
  refine ⟨?_, ?_, ?_, ?_, ?_⟩
  · rw [gen_images_eq_ok _ _ _ _ _ _ _ _ (by decide) (by decide)]
    congr 1
    norm_num [gen_images_core, locsCE, featsCE, gdNanCorner, tCE, hxs, hys,
      hminx, hmaxx, hminy, hmaxy, hls0, hls1, hrange2, hrange1]
  · rw [hxs, hminx, hmaxx, hls1]
  · rw [hys, hminy, hmaxy, hls1]
  · decide
  · decide

/-- C2 (amended): with `augment=False` and `edgeless=False`, `gen_images`
returns a tensor of shape `[n_samples, n_colors, n_gridpoints, n_gridpoints]`
with `n_colors = n_features / n_electrodes`; the interpolation grid spans the
bounding box `[min_x, max_x] × [min_y, max_y]` of the electrode locations;
and when `normalize=False`, band `c` of sample `i` is the cubic `griddata`
interpolation of that band's `n_electrodes` feature values over that grid,
with `NaN` values (outside the convex hull) replaced by `0`.  (With
`normalize=True` the band is additionally z-scored before the `NaN`
replacement, which is what the counterexample forces to be excluded from the
literal content claim.) -/
theorem gen_images_shape_and_grid {α : Type} [LinearOrderedField α]
    (gd : List (α × α) → List α → α × α → Option α)
    (scaleFn : List α → List α)
    (locs : List (α × α)) (features : List (List α)) (n k : ℕ) (normalize : Bool)
    (hne : locs ≠ [])
    (hcols : ∀ r ∈ features, r.length = k * locs.length) :
    ∃ t, gen_images gd scaleFn id locs features n normalize false false = Except.ok t
      ∧ shape4 t features.length k n n
      ∧ (2 ≤ n →
          linspace (listMin (locs.map Prod.fst) 0) (listMax (locs.map Prod.fst) 0) n 0
            = listMin (locs.map Prod.fst) 0
          ∧ linspace (listMin (locs.map Prod.fst) 0) (listMax (locs.map Prod.fst) 0) n (n - 1)
            = listMax (locs.map Prod.fst) 0
          ∧ linspace (listMin (locs.map Prod.snd) 0) (listMax (locs.map Prod.snd) 0) n 0
            = listMin (locs.map Prod.snd) 0
          ∧ linspace (listMin (locs.map Prod.snd) 0) (listMax (locs.map Prod.snd) 0) n (n - 1)
            = listMax (locs.map Prod.snd) 0)
      ∧ (normalize = false → ∀ i c gx gy, i < features.length → c < k → gx < n → gy < n →
          entry4 t i c gx gy none
            = some ((gd locs (((features.getD i []).drop (c * locs.length)).take locs.length)
                (linspace (listMin (locs.map Prod.fst) 0) (listMax (locs.map Prod.fst) 0) n gx,
                 linspace (listMin (locs.map Prod.snd) 0) (listMax (locs.map Prod.snd) 0) n gy)).getD 0)) := by
  refine ⟨gen_images_core gd scaleFn id locs features n normalize false,
    gen_images_eq_ok gd scaleFn id locs features n normalize false hne
      (headD_mod_of_cols locs features k hcols),
    gen_images_core_shape gd scaleFn id locs features n k normalize hne hcols,
    fun h2 => ⟨(linspace_span _ _ n h2).1, (linspace_span _ _ n h2).2,
      (linspace_span _ _ n h2).1, (linspace_span _ _ n h2).2⟩,
    fun hnorm i c gx gy hi hc hgx hgy => ?_⟩
  subst hnorm
  exact gen_images_core_entry_nonorm gd scaleFn id locs features n k i c gx gy hne hcols
    hi hc hgx hgy

/-- Witness for the amended C2, at a concrete input (one sample, three
electrodes, one colour band, a `2 × 2` grid). -/
theorem gen_images_shape_and_grid_witness :
    ∃ t, gen_images gdNanCorner id id locsCE featsCE 2 false false false = Except.ok t
      ∧ shape4 t featsCE.length 1 2 2
      ∧ (2 ≤ 2 →
          linspace (listMin (locsCE.map Prod.fst) 0) (listMax (locsCE.map Prod.fst) 0) 2 0
            = listMin (locsCE.map Prod.fst) 0
          ∧ linspace (listMin (locsCE.map Prod.fst) 0) (listMax (locsCE.map Prod.fst) 0) 2 (2 - 1)
            = listMax (locsCE.map Prod.fst) 0
          ∧ linspace (listMin (locsCE.map Prod.snd) 0) (listMax (locsCE.map Prod.snd) 0) 2 0
            = listMin (locsCE.map Prod.snd) 0
          ∧ linspace (listMin (locsCE.map Prod.snd) 0) (listMax (locsCE.map Prod.snd) 0) 2 (2 - 1)
            = listMax (locsCE.map Prod.snd) 0)
      ∧ (false = false → ∀ i c gx gy, i < featsCE.length → c < 1 → gx < 2 → gy < 2 →
          entry4 t i c gx gy none
            = some ((gdNanCorner locsCE (((featsCE.getD i []).drop (c * locsCE.length)).take locsCE.length)
                (linspace (listMin (locsCE.map Prod.fst) 0) (listMax (locsCE.map Prod.fst) 0) 2 gx,
                 linspace (listMin (locsCE.map Prod.snd) 0) (listMax (locsCE.map Prod.snd) 0) 2 gy)).getD 0)) :=
  gen_images_shape_and_grid gdNanCorner id locsCE featsCE 2 1 false (by decide) (by decide)

/-- C7: for every valid input (`augment=False`, `edgeless=False`, feature
count a multiple of the electrode count), whether `normalize` is true or
false, every entry of the returned tensor is a finite number: every `NaN`
produced by the cubic interpolation outside the convex hull has been
replaced through `np.nan_to_num` before the tensor is returned. -/
theorem gen_images_entries_finite {α : Type} [LinearOrderedField α]
    (gd : List (α × α) → List α → α × α → Option α)
    (scaleFn : List α → List α)
    (locs : List (α × α)) (features : List (List α)) (n k : ℕ) (normalize : Bool)
    (hne : locs ≠ [])
    (hcols : ∀ r ∈ features, r.length = k * locs.length) :
    ∃ t, gen_images gd scaleFn id locs features n normalize false false = Except.ok t
      ∧ ∀ i c gx gy, i < features.length → c < k → gx < n → gy < n →
          (entry4 t i c gx gy none).isSome :=
  ⟨gen_images_core gd scaleFn id locs features n normalize false,
    gen_images_eq_ok gd scaleFn id locs features n normalize false hne
      (headD_mod_of_cols locs features k hcols),
    fun i c gx gy hi hc hgx hgy =>
      gen_images_core_entry_isSome gd scaleFn id locs features n k i c gx gy normalize
        hne hcols hi hc hgx hgy⟩

/-- Witness for C7 at a concrete input with `normalize=True` and a `NaN`
produced at the grid corner outside the convex hull. -/
theorem gen_images_entries_finite_witness :
    ∃ t, gen_images gdNanCorner id id locsCE featsCE 2 true false false = Except.ok t
      ∧ ∀ i c gx gy, i < featsCE.length → c < 1 → gx < 2 → gy < 2 →
          (entry4 t i c gx gy none).isSome :=
  gen_images_entries_finite gdNanCorner id locsCE featsCE 2 1 true (by decide) (by decide)

/-! ## Theorems about the 5-fold loop (claims C3 and C6) -/

lemma foldl_preserves {β γ : Type} (P : γ → Prop) (step : γ → β → γ)
    (hstep : ∀ acc b, P acc → P (step acc b)) :
    ∀ (l : List β) (init : γ), P init → P (l.foldl step init)
  | [], _, h => h
  | b :: bs, init, h =>
    foldl_preserves P step hstep bs (step init b) (hstep init b h)

lemma maskAssign_length (cls : ℕ) :
    ∀ (es ts vs : List ℕ), es.length = ts.length →
      (maskAssign cls es ts vs).length = ts.length := by
  intro es
  induction es with
  | nil =>
    intro ts vs h
    cases ts with
    | nil => rfl
    | cons t ts' => simp at h
  | cons e es ih =>
    intro ts vs h
    cases ts with
    | nil => simp at h
    | cons t ts' =>
      by_cases hce : e = cls
      · simp [maskAssign, if_pos hce, ih ts' vs.tail (by simpa using h)]
      · simp [maskAssign, if_neg hce, ih ts' vs (by simpa using h)]

lemma maskAssign_mem (cls : ℕ) (P : ℕ → Prop) :
    ∀ (es ts vs : List ℕ), (∀ v ∈ ts, P v) → (∀ v ∈ vs, P v) →
      ∀ v ∈ maskAssign cls es ts vs, P v := by
  intro es
  induction es with
  | nil =>
    intro ts vs _ _ v hv
    simp [maskAssign] at hv
  | cons e es ih =>
    intro ts vs hts hvs v hv
    cases ts with
    | nil => simp [maskAssign] at hv
    | cons t ts' =>
      by_cases hce : e = cls
      · rw [maskAssign, if_pos hce] at hv
        rcases List.mem_cons.mp hv with rfl | hmem
        · cases vs with
          | nil => exact hts _ (by simp)
          | cons v0 vs' => exact hvs _ (by simp)
        · exact ih ts' vs.tail (fun x hx => hts x (by simp [hx]))
            (fun x hx => hvs x (List.mem_of_mem_tail hx)) v hmem
      · rw [maskAssign, if_neg hce] at hv
        rcases List.mem_cons.mp hv with rfl | hmem
        · exact hts _ (by simp)
        · exact ih ts' vs (fun x hx => hts x (by simp [hx])) hvs v hmem

lemma foldsForClass_mem (k : ℕ) (yOrder : List ℕ) (cls : ℕ) :
    ∀ v ∈ foldsForClass k yOrder cls, v < k := by
  intro v hv
  simp only [foldsForClass, List.mem_flatten, List.mem_map, List.mem_range] at hv
  obtain ⟨l, ⟨i, hi, rfl⟩, hvl⟩ := hv
  rw [List.eq_of_mem_replicate hvl]
  exact hi

lemma makeTestFolds_length (k : ℕ) (shuf : ℕ → List ℕ → List ℕ) (y : List ℕ) :
    (makeTestFolds k shuf y).length = y.length := by
  unfold makeTestFolds
  refine foldl_preserves (fun (tf : List ℕ) => tf.length = y.length) _ ?_ _ _ (by simp)
  intro acc cls hP
  rw [maskAssign_length cls _ _ _ (by simp [encodeLabels, hP])]
  exact hP

lemma makeTestFolds_lt (k : ℕ) (shuf : ℕ → List ℕ → List ℕ) (y : List ℕ)
    (hshuf : ∀ c l, (shuf c l).Perm l) (hk : 0 < k) :
    ∀ v ∈ makeTestFolds k shuf y, v < k := by
  unfold makeTestFolds
  refine foldl_preserves (fun (tf : List ℕ) => ∀ v ∈ tf, v < k) _ ?_ _ _ ?_
  · intro acc cls hP
    refine maskAssign_mem cls (fun v => v < k) _ _ _ hP ?_
    intro v hv
    exact foldsForClass_mem k _ cls v (((hshuf cls _).mem_iff).mp hv)
  · intro v hv
    rw [List.eq_of_mem_replicate hv]
    exact hk

lemma mem_testIdx (tf : List ℕ) (m j : ℕ) :
    j ∈ testIdx tf m ↔ j < tf.length ∧ tf.getD j 0 = m := by
  simp [testIdx, List.mem_filter]

lemma mem_trainIdx (tf : List ℕ) (m j : ℕ) :
    j ∈ trainIdx tf m ↔ j < tf.length ∧ tf.getD j 0 ≠ m := by
  simp [trainIdx, List.mem_filter]

lemma getD_mem_of_lt {β : Type} (l : List β) (j : ℕ) (d : β) (h : j < l.length) :
    l.getD j d ∈ l := by
  rw [List.getD_eq_getElem?_getD, List.getElem?_eq_getElem h]
  exact List.getElem_mem h

lemma runKFold_getD {F M : Type}
    (trainFn : List F → List ℕ → M) (predictFn : M → F → ℕ)
    (accFn precFn recFn f1mFn f1wFn : List ℕ → List ℕ → ℚ)
    (shuf : ℕ → List ℕ → List ℕ)
    (features : List F) (labels : List ℕ) (m : ℕ) (hm : m < 5) :
    (runKFold trainFn predictFn accFn precFn recFn f1mFn f1wFn
        shuf features labels).getD m emptyFold
      = foldResultAt trainFn predictFn accFn precFn recFn f1mFn f1wFn
          shuf features labels m := by
  unfold runKFold
  exact getD_range_map _ _ _ hm _

/-- C3: the evaluation loop is a stratified 5-fold cross-validation.  The
five held-out test index sets are pairwise disjoint and cover every sample
exactly once; for each fold, no index is both a test and a train index; and
each fold's reported confusion matrix, accuracy, macro precision, macro
recall, macro F1 and weighted F1 are computed from the test-indexed labels
paired with the predictions of a model trained only on the train-indexed
data. -/
theorem kfold_partition_and_metrics {F M : Type}
    (trainFn : List F → List ℕ → M) (predictFn : M → F → ℕ)
    (accFn precFn recFn f1mFn f1wFn : List ℕ → List ℕ → ℚ)
    (shuf : ℕ → List ℕ → List ℕ)
    (features : List F) (labels : List ℕ)
    (hshuf : ∀ c l, (shuf c l).Perm l) :
    (makeTestFolds 5 shuf labels).length = labels.length
    ∧ (∀ m₁ m₂ j, m₁ ≠ m₂ →
        j ∈ testIdx (makeTestFolds 5 shuf labels) m₁ →
        j ∉ testIdx (makeTestFolds 5 shuf labels) m₂)
    ∧ (∀ j, j < labels.length → ∃ m, m < 5
        ∧ j ∈ testIdx (makeTestFolds 5 shuf labels) m
        ∧ ∀ m', j ∈ testIdx (makeTestFolds 5 shuf labels) m' → m' = m)
    ∧ (∀ m j, ¬ (j ∈ testIdx (makeTestFolds 5 shuf labels) m
        ∧ j ∈ trainIdx (makeTestFolds 5 shuf labels) m))
    ∧ (∀ m, m < 5 →
        (runKFold trainFn predictFn accFn precFn recFn f1mFn f1wFn
            shuf features labels).getD m emptyFold
          = let tf := makeTestFolds 5 shuf labels
            let test := testIdx tf m
            let train := trainIdx tf m
            let model := trainFn (selectIdx features train) (selectIdx labels train)
            let preds := (selectIdx features test).map (predictFn model)
            let t := selectIdx labels test
            ⟨test, train, rowNormalize (confusionMatrix [0, 1] t preds),
              accFn t preds, precFn t preds, recFn t preds,
              f1mFn t preds, f1wFn t preds⟩) := by
  refine ⟨makeTestFolds_length 5 shuf labels, ?_, ?_, ?_, ?_⟩
  · intro m₁ m₂ j hne h1 h2
    exact hne (((mem_testIdx _ _ _).mp h1).2.symm.trans ((mem_testIdx _ _ _).mp h2).2)
  · intro j hj
    have hjlen : j < (makeTestFolds 5 shuf labels).length := by
      rw [makeTestFolds_length]; exact hj
    refine ⟨(makeTestFolds 5 shuf labels).getD j 0, ?_, ?_, ?_⟩
    · exact makeTestFolds_lt 5 shuf labels hshuf (by norm_num) _
        (getD_mem_of_lt _ j 0 hjlen)
    · exact (mem_testIdx _ _ _).mpr ⟨hjlen, rfl⟩
    · intro m' hm'
      exact ((mem_testIdx _ _ _).mp hm').2.symm
  · intro m j hboth
    exact ((mem_trainIdx _ _ _).mp hboth.2).2 ((mem_testIdx _ _ _).mp hboth.1).2
  · intro m hm
    rw [runKFold_getD _ _ _ _ _ _ _ _ _ _ m hm]
    rfl

/-- Witness for C3: the exactly-once coverage statement for sample 3, with
ten concrete samples, identity shuffle and constant oracles. -/
theorem kfold_partition_and_metrics_witness :
    ∃ m, m < 5
      ∧ 3 ∈ testIdx (makeTestFolds 5 (fun _ l => l) wLabels) m
      ∧ ∀ m', 3 ∈ testIdx (makeTestFolds 5 (fun _ l => l) wLabels) m' → m' = m :=
  (kfold_partition_and_metrics (fun (_ : List ℕ) (_ : List ℕ) => ()) (fun _ _ => 0)
    (fun _ _ => 0) (fun _ _ => 0) (fun _ _ => 0) (fun _ _ => 0) (fun _ _ => 0)
    (fun _ l => l) wFeatures wLabels (fun _ _ => List.Perm.refl _)).2.2.1 3 (by decide)

lemma selectIdx_length {β : Type} (l : List β) (idx : List ℕ)
    (h : ∀ j ∈ idx, j < l.length) :
    (selectIdx l idx).length = idx.length := by
  induction idx with
  | nil => rfl
  | cons j rest ih =>
    have hj : j < l.length := h j (by simp)
    simp only [selectIdx, List.filterMap_cons, List.getElem?_eq_getElem hj,
      List.length_cons]
    have := ih (fun x hx => h x (by simp [hx]))
    simpa [selectIdx] using this

lemma zip_pair_mem : ∀ (t p : List ℕ), p.length = t.length → ∀ a ∈ t,
    ∃ b ∈ p, (a, b) ∈ t.zip p
  | [], _, _, a, ha => absurd ha (by simp)
  | t0 :: ts, [], hlen, a, ha => by simp at hlen
  | t0 :: ts, p0 :: ps, hlen, a, ha => by
    rcases List.mem_cons.mp ha with rfl | hmem
    · exact ⟨p0, by simp, by simp [List.zip_cons_cons]⟩
    · obtain ⟨b, hb, hzb⟩ := zip_pair_mem ts ps (by simpa using hlen) a hmem
      exact ⟨b, by simp [hb], by simp [List.zip_cons_cons, hzb]⟩

lemma conf_filters_pos (t p : List ℕ) (a : ℕ) (hlen : p.length = t.length)
    (ha : a ∈ t) (hp : ∀ v ∈ p, v ≤ 1) :
    0 < ((t.zip p).filter (fun tp => tp.1 == a && tp.2 == 0)).length
        + ((t.zip p).filter (fun tp => tp.1 == a && tp.2 == 1)).length := by
  obtain ⟨b, hbp, hzb⟩ := zip_pair_mem t p hlen a ha
  rcases Nat.le_one_iff_eq_zero_or_eq_one.mp (hp b hbp) with rfl | rfl
  · have hmem : (a, 0) ∈ (t.zip p).filter (fun tp => tp.1 == a && tp.2 == 0) := by
      simp [List.mem_filter, hzb]
    have := List.length_pos.mpr (List.ne_nil_of_mem hmem)
    omega
  · have hmem : (a, 1) ∈ (t.zip p).filter (fun tp => tp.1 == a && tp.2 == 1) := by
      simp [List.mem_filter, hzb]
    have := List.length_pos.mpr (List.ne_nil_of_mem hmem)
    omega

lemma rowNorm_conf_rows_sum_one (t p : List ℕ) (hlen : p.length = t.length)
    (h0 : 0 ∈ t) (h1 : 1 ∈ t) (hp : ∀ v ∈ p, v ≤ 1) :
    ∀ row ∈ rowNormalize (confusionMatrix [0, 1] t p), row.sum = 1 := by
  intro row hrow
  have hpos0 := conf_filters_pos t p 0 hlen h0 hp
  have hpos1 := conf_filters_pos t p 1 hlen h1 hp
  simp only [confusionMatrix, rowNormalize, List.map_cons, List.map_nil,
    List.mem_cons, List.mem_singleton, List.not_mem_nil, or_false] at hrow
  rcases hrow with rfl | rfl
  · have hS : ((((t.zip p).filter (fun tp => tp.1 == 0 && tp.2 == 0)).length : ℚ)
        + (((t.zip p).filter (fun tp => tp.1 == 0 && tp.2 == 1)).length : ℚ)) ≠ 0 := by
      have : (0:ℚ) < (((t.zip p).filter (fun tp => tp.1 == 0 && tp.2 == 0)).length : ℚ)
          + (((t.zip p).filter (fun tp => tp.1 == 0 && tp.2 == 1)).length : ℚ) := by
        exact_mod_cast hpos0
      exact this.ne'
    simp only [List.sum_cons, List.sum_nil, add_zero]
    rw [div_add_div_same, div_self hS]
  · have hS : ((((t.zip p).filter (fun tp => tp.1 == 1 && tp.2 == 0)).length : ℚ)
        + (((t.zip p).filter (fun tp => tp.1 == 1 && tp.2 == 1)).length : ℚ)) ≠ 0 := by
      have : (0:ℚ) < (((t.zip p).filter (fun tp => tp.1 == 1 && tp.2 == 0)).length : ℚ)
          + (((t.zip p).filter (fun tp => tp.1 == 1 && tp.2 == 1)).length : ℚ) := by
        exact_mod_cast hpos1
      exact this.ne'
    simp only [List.sum_cons, List.sum_nil, add_zero]
    rw [div_add_div_same, div_self hS]

lemma foldl_matAdd_sum :
    ∀ (rest : List (List (List ℚ))) (a b c d x : ℚ),
      a + b = x → c + d = x →
      (∀ mat ∈ rest, ∃ e f g h, mat = [[e, f], [g, h]] ∧ e + f = 1 ∧ g + h = 1) →
      ∃ a2 b2 c2 d2, rest.foldl matAdd [[a, b], [c, d]] = [[a2, b2], [c2, d2]]
        ∧ a2 + b2 = x + rest.length ∧ c2 + d2 = x + rest.length := by
  intro rest
  induction rest with
  | nil =>
    intro a b c d x hab hcd _
    exact ⟨a, b, c, d, rfl, by simpa using hab, by simpa using hcd⟩
  | cons mat rest ih =>
    intro a b c d x hab hcd hmats
    obtain ⟨e, f, g, h, rfl, hef, hgh⟩ := hmats mat (by simp)
    have hstep : matAdd [[a, b], [c, d]] [[e, f], [g, h]]
        = [[a + e, b + f], [c + g, d + h]] := by
      simp [matAdd]
    rw [List.foldl_cons, hstep]
    obtain ⟨a2, b2, c2, d2, heq, hs1, hs2⟩ :=
      ih (a + e) (b + f) (c + g) (d + h) (x + 1) (by linarith) (by linarith)
        (fun m hm => hmats m (by simp [hm]))
    refine ⟨a2, b2, c2, d2, heq, ?_, ?_⟩
    · rw [hs1]; push_cast [List.length_cons]; ring
    · rw [hs2]; push_cast [List.length_cons]; ring

lemma matMean_rows_sum_one (ms : List (List (List ℚ)))
    (hshape : ∀ mat ∈ ms, ∃ a b c d, mat = [[a, b], [c, d]])
    (hsum : ∀ mat ∈ ms, ∀ row ∈ mat, row.sum = 1) :
    ∀ row ∈ matMean ms, row.sum = 1 := by
  cases ms with
  | nil => intro row hrow; simp [matMean] at hrow
  | cons m0 rest =>
    obtain ⟨a, b, c, d, rfl⟩ := hshape m0 (by simp)
    have hab : a + b = 1 := by
      have := hsum [[a, b], [c, d]] (by simp) [a, b] (by simp)
      simpa using this
    have hcd : c + d = 1 := by
      have := hsum [[a, b], [c, d]] (by simp) [c, d] (by simp)
      simpa using this
    have hmats : ∀ mat ∈ rest, ∃ e f g h, mat = [[e, f], [g, h]]
        ∧ e + f = 1 ∧ g + h = 1 := by
      intro mat hm
      obtain ⟨e, f, g, h, rfl⟩ := hshape mat (by simp [hm])
      refine ⟨e, f, g, h, rfl, ?_, ?_⟩
      · have := hsum [[e, f], [g, h]] (by simp [hm]) [e, f] (by simp)
        simpa using this
      · have := hsum [[e, f], [g, h]] (by simp [hm]) [g, h] (by simp)
        simpa using this
    obtain ⟨a2, b2, c2, d2, heq, hs1, hs2⟩ := foldl_matAdd_sum rest a b c d 1 hab hcd hmats
    intro row hrow
    simp only [matMean, heq, List.map_cons, List.map_nil, List.mem_cons,
      List.mem_singleton, List.not_mem_nil, or_false] at hrow
    have hLpos : (0:ℚ) < (([[a, b], [c, d]] :: rest).length : ℚ) := by
      push_cast [List.length_cons]
      positivity
    have hL : (([[a, b], [c, d]] :: rest).length : ℚ) ≠ 0 := hLpos.ne'
    have hlen2 : ((([[a, b], [c, d]] :: rest).length : ℕ) : ℚ) = 1 + (rest.length : ℚ) := by
      push_cast [List.length_cons]
      ring
    rcases hrow with rfl | rfl
    · simp only [List.sum_cons, List.sum_nil, add_zero]
      rw [div_add_div_same, hs1, ← hlen2, div_self hL]
    · simp only [List.sum_cons, List.sum_nil, add_zero]
      rw [div_add_div_same, hs2, ← hlen2, div_self hL]

/-- C6: each fold's 2x2 confusion matrix is divided row-wise by its row sums
(`cm / cm.sum(axis=1, keepdims=True)`) and the final `conf_mat` is the
elementwise mean of the per-fold matrices (`np.mean(cm_list, axis=0)`);
provided both true classes 0 and 1 occur in every fold's test labels (and
predictions are 0/1, as `predict_classes` guarantees for two classes), every
row of each per-fold matrix and of the final `conf_mat` sums exactly to 1. -/
theorem kfold_conf_mat_rows_sum_one {F M : Type}
    (trainFn : List F → List ℕ → M) (predictFn : M → F → ℕ)
    (accFn precFn recFn f1mFn f1wFn : List ℕ → List ℕ → ℚ)
    (shuf : ℕ → List ℕ → List ℕ)
    (features : List F) (labels : List ℕ)
    (hflen : features.length = labels.length)
    (hpred : ∀ mo x, predictFn mo x ≤ 1)
    (hcls : ∀ m, m < 5 →
      0 ∈ selectIdx labels (testIdx (makeTestFolds 5 shuf labels) m)
      ∧ 1 ∈ selectIdx labels (testIdx (makeTestFolds 5 shuf labels) m)) :
    (∀ m, m < 5 →
      ∀ row ∈ ((runKFold trainFn predictFn accFn precFn recFn f1mFn f1wFn
          shuf features labels).getD m emptyFold).cm, row.sum = 1)
    ∧ ∀ row ∈ kfoldConfMat trainFn predictFn accFn precFn recFn f1mFn f1wFn
        shuf features labels, row.sum = 1 := by
  have hfold : ∀ m, m < 5 →
      ∀ row ∈ (foldResultAt trainFn predictFn accFn precFn recFn f1mFn f1wFn
          shuf features labels m).cm, row.sum = 1 := by
    intro m hm row hrow
    have htest : ∀ j ∈ testIdx (makeTestFolds 5 shuf labels) m, j < labels.length := by
      intro j hj
      have := ((mem_testIdx _ _ _).mp hj).1
      rwa [makeTestFolds_length] at this
    have hlt : (selectIdx labels (testIdx (makeTestFolds 5 shuf labels) m)).length
        = (testIdx (makeTestFolds 5 shuf labels) m).length :=
      selectIdx_length _ _ htest
    have hlf : (selectIdx features (testIdx (makeTestFolds 5 shuf labels) m)).length
        = (testIdx (makeTestFolds 5 shuf labels) m).length :=
      selectIdx_length _ _ (fun j hj => by rw [hflen]; exact htest j hj)
    simp only [foldResultAt] at hrow
    refine rowNorm_conf_rows_sum_one _ _ ?_ (hcls m hm).1 (hcls m hm).2 ?_ row hrow
    · rw [List.length_map, hlf, hlt]
    · intro v hv
      obtain ⟨x, _, rfl⟩ := List.mem_map.mp hv
      exact hpred _ x
  refine ⟨?_, ?_⟩
  · intro m hm
    rw [runKFold_getD trainFn predictFn accFn precFn recFn f1mFn f1wFn
      shuf features labels m hm]
    exact hfold m hm
  · unfold kfoldConfMat
    refine matMean_rows_sum_one _ ?_ ?_
    · intro mat hmat
      simp only [runKFold, List.map_map, List.mem_map, List.mem_range] at hmat
      obtain ⟨m, hm, rfl⟩ := hmat
      exact ⟨_, _, _, _, rfl⟩
    · intro mat hmat
      simp only [runKFold, List.map_map, List.mem_map, List.mem_range] at hmat
      obtain ⟨m, hm, rfl⟩ := hmat
      exact hfold m hm

/-- Witness for C6: ten balanced samples with identity shuffle; both classes
occur in every fold's test labels and a constant-0 predictor is used. -/
theorem kfold_conf_mat_rows_sum_one_witness :
    (∀ m, m < 5 →
      ∀ row ∈ ((runKFold (fun (_ : List ℕ) (_ : List ℕ) => ()) (fun _ _ => 0)
          (fun _ _ => 0) (fun _ _ => 0) (fun _ _ => 0) (fun _ _ => 0) (fun _ _ => 0)
          (fun _ l => l) wFeatures wLabels).getD m emptyFold).cm, row.sum = 1)
    ∧ ∀ row ∈ kfoldConfMat (fun (_ : List ℕ) (_ : List ℕ) => ()) (fun _ _ => 0)
        (fun _ _ => 0) (fun _ _ => 0) (fun _ _ => 0) (fun _ _ => 0) (fun _ _ => 0)
        (fun _ l => l) wFeatures wLabels, row.sum = 1 :=
  kfold_conf_mat_rows_sum_one (fun _ _ => ()) (fun _ _ => 0)
    (fun _ _ => 0) (fun _ _ => 0) (fun _ _ => 0) (fun _ _ => 0) (fun _ _ => 0)
    (fun _ l => l) wFeatures wLabels rfl (fun _ x => Nat.zero_le 1) (by decide)

/-! ## Theorems about the data shuffle (claim C9) and `create_model` (claim C10) -/

lemma range_map_getD_pair {F : Type} [Inhabited F] :
    ∀ (fs : List F) (ls : List ℕ), fs.length = ls.length →
      (List.range fs.length).map (fun j => (fs.getD j default, ls.getD j 0)) = fs.zip ls := by
  intro fs
  induction fs with
  | nil => intro ls _; simp
  | cons f fs ih =>
    intro ls h
    cases ls with
    | nil => simp at h
    | cons l ls =>
      rw [List.length_cons, List.range_succ_eq_map]
      simp only [List.map_cons, List.map_map, List.getD_cons_zero, List.zip_cons_cons,
        List.cons.injEq, true_and]
      have := ih ls (by simpa using h)
      simpa [Function.comp_def, List.getElem?_cons_succ] using this

lemma range_map_getD : ∀ (ls : List ℕ),
    (List.range ls.length).map (fun j => ls.getD j 0) = ls := by
  intro ls
  induction ls with
  | nil => simp
  | cons l ls ih =>
    rw [List.length_cons, List.range_succ_eq_map]
    simp only [List.map_cons, List.map_map, List.getD_cons_zero, List.cons.injEq, true_and]
    simpa [Function.comp_def, List.getElem?_cons_succ] using ih

/-- C9: the shuffle preserves the pairing of samples with their labels.
Since features and labels are indexed by the same permutation `rand_order`,
the multiset of (feature row, label) pairs after shuffling equals the
multiset before, and `class_num` equals the number of distinct label values
present. -/
theorem shuffle_preserves_pairing {F : Type} [Inhabited F]
    (perm : List ℕ) (features : List F) (labels : List ℕ) (n : ℕ)
    (hperm : perm.Perm (List.range n))
    (hf : features.length = n) (hl : labels.length = n) :
    ((shuffleData perm features labels).1.zip
        (shuffleData perm features labels).2.1).Perm (features.zip labels)
    ∧ (shuffleData perm features labels).2.2 = labels.toFinset.card := by
  constructor
  · show ((perm.map _).zip (perm.map _)).Perm _
    rw [List.zip_map']
    have h1 : (perm.map (fun j => (features.getD j default, labels.getD j 0))).Perm
        ((List.range n).map (fun j => (features.getD j default, labels.getD j 0))) :=
      hperm.map _
    have h2 : (List.range n).map (fun j => (features.getD j default, labels.getD j 0))
        = features.zip labels := by
      rw [← hf]
      exact range_map_getD_pair features labels (hf.trans hl.symm)
    exact h2 ▸ h1
  · show (perm.map (fun j => labels.getD j 0)).dedup.length = labels.toFinset.card
    have h1 : (perm.map (fun j => labels.getD j 0)).Perm labels := by
      have hp := hperm.map (fun j => labels.getD j 0)
      rwa [← hl, range_map_getD labels] at hp
    rw [List.card_toFinset]
    exact h1.dedup.length_eq

/-- Witness for C9 at a concrete permutation of two samples. -/
theorem shuffle_preserves_pairing_witness :
    ((shuffleData [1, 0] [10, 20] [3, 3]).1.zip
        (shuffleData [1, 0] [10, 20] [3, 3]).2.1).Perm ([10, 20].zip [3, 3])
    ∧ (shuffleData [1, 0] [10, 20] [3, 3]).2.2 = ([3, 3] : List ℕ).toFinset.card :=
  shuffle_preserves_pairing [1, 0] [10, 20] [3, 3] 2 (by decide) rfl rfl

/-- C10: `create_model` builds exactly the layer sequence three times
(Conv1D, AveragePooling1D) with filters 16/32/32, kernel size 3, pool size
2, stride 2 and `same` padding, then Flatten, BatchNormalization, Dense(128),
Dropout, Dense(class_num) followed by a softmax activation, whose output is
a probability vector (positive entries summing to 1); it is compiled with
`categorical_crossentropy` for the Adam optimizer and `binary_crossentropy`
for SGD and RMSprop. -/
theorem create_model_architecture (init_mode activation : String)
    (dropout_rate : ℚ) (optimizer : String) (learn_rate : ℚ) (class_num : ℕ)
    (n : ℕ) (v : Fin n → ℝ) (hn : 0 < n) :
    (create_model init_mode activation dropout_rate optimizer learn_rate class_num).1
      = [KLayer.conv1d 16 3 "same" activation none,
         KLayer.avgPool1d 2 2 "same",
         KLayer.conv1d 32 3 "same" activation (some init_mode),
         KLayer.avgPool1d 2 2 "same",
         KLayer.conv1d 32 3 "same" activation (some init_mode),
         KLayer.avgPool1d 2 2 "same",
         KLayer.flatten, KLayer.batchNorm,
         KLayer.dense 128 (some init_mode) (some activation),
         KLayer.dropout dropout_rate,
         KLayer.dense class_num none none,
         KLayer.activation "softmax"]
    ∧ (create_model init_mode activation dropout_rate "Adam" learn_rate class_num).2
        = some "categorical_crossentropy"
    ∧ (create_model init_mode activation dropout_rate "SGD" learn_rate class_num).2
        = some "binary_crossentropy"
    ∧ (create_model init_mode activation dropout_rate "RMSprop" learn_rate class_num).2
        = some "binary_crossentropy"
    ∧ (∑ i, softmax n v i) = 1
    ∧ ∀ i, 0 < softmax n v i := by
  have hnonempty : Nonempty (Fin n) := ⟨⟨0, hn⟩⟩
  have hpos : 0 < ∑ j, Real.exp (v j) :=
    Finset.sum_pos (fun j _ => Real.exp_pos (v j)) Finset.univ_nonempty
  refine ⟨rfl, rfl, rfl, rfl, ?_, ?_⟩
  · unfold softmax
    rw [← Finset.sum_div]
    exact div_self hpos.ne'
  · intro i
    unfold softmax
    exact div_pos (Real.exp_pos _) hpos

/-- Witness for C10 at concrete hyperparameters and a two-class logit
vector. -/
theorem create_model_architecture_witness :
    (create_model "he_normal" "relu" (3/10) "Adam" (1/1000) 2).1
      = [KLayer.conv1d 16 3 "same" "relu" none,
         KLayer.avgPool1d 2 2 "same",
         KLayer.conv1d 32 3 "same" "relu" (some "he_normal"),
         KLayer.avgPool1d 2 2 "same",
         KLayer.conv1d 32 3 "same" "relu" (some "he_normal"),
         KLayer.avgPool1d 2 2 "same",
         KLayer.flatten, KLayer.batchNorm,
         KLayer.dense 128 (some "he_normal") (some "relu"),
         KLayer.dropout (3/10),
         KLayer.dense 2 none none,
         KLayer.activation "softmax"]
    ∧ (create_model "he_normal" "relu" (3/10) "Adam" (1/1000) 2).2
        = some "categorical_crossentropy"
    ∧ (create_model "he_normal" "relu" (3/10) "SGD" (1/1000) 2).2
        = some "binary_crossentropy"
    ∧ (create_model "he_normal" "relu" (3/10) "RMSprop" (1/1000) 2).2
        = some "binary_crossentropy"
    ∧ (∑ i, softmax 2 (fun _ => 0) i) = 1
    ∧ ∀ i, 0 < softmax 2 (fun _ => 0) i :=
  create_model_architecture "he_normal" "relu" (3/10) "Adam" (1/1000) 2 2
    (fun _ => 0) (by norm_num)

/-! ## Theorems about the pipeline (claim C5) -/

lemma processMats_ok {α : Type}
    (gi : List (List α) → Except String (List (List (List (List (Option α)))))) :
    ∀ (names : List String) (content : String → Option (MatValue α)) (tr : List PEvent),
      names.Nodup →
      (∀ m ∈ names, ∀ m2 ∈ names, m ++ "_img" ≠ m2) →
      List.Pairwise (fun a b => a ++ "_img" ≠ b ++ "_img") names →
      (∀ m ∈ names, ∃ f t, content m = some (MatValue.mat f) ∧ gi f = Except.ok t) →
      ∃ final, processMats gi names content tr
          = (tr ++ names.map PEvent.gen, Except.ok final)
        ∧ (∀ m ∈ names, ∃ f t, content m = some (MatValue.mat f) ∧ gi f = Except.ok t
            ∧ final (m ++ "_img") = some (MatValue.img t))
        ∧ (∀ kk, kk ∉ names → (∀ m ∈ names, kk ≠ m ++ "_img") → final kk = content kk) := by
  intro names
  induction names with
  | nil =>
    intro content tr _ _ _ _
    exact ⟨content, by simp [processMats], by simp, fun kk _ _ => rfl⟩
  | cons m rest ih =>
    intro content tr hnodup hfresh hpair hok
    obtain ⟨f, t, hcf, hgf⟩ := hok m (by simp)
    have hstep : processMats gi (m :: rest) content tr
        = processMats gi rest
            (fun kk => if kk = m ++ "_img" then some (MatValue.img t)
              else if kk = m then none else content kk)
            (tr ++ [PEvent.gen m]) := by
      simp only [processMats, hcf, hgf]
    have hrest : ∀ m2 ∈ rest,
        (fun kk => if kk = m ++ "_img" then some (MatValue.img t)
          else if kk = m then none else content kk) m2 = content m2 := by
      intro m2 hm2
      have h1 : m2 ≠ m ++ "_img" := (hfresh m (by simp) m2 (by simp [hm2])).symm
      have h2 : m2 ≠ m := by
        intro he
        subst he
        exact (List.nodup_cons.mp hnodup).1 hm2
      simp only [if_neg h1, if_neg h2]
    have hok2 : ∀ m2 ∈ rest, ∃ f2 t2,
        (fun kk => if kk = m ++ "_img" then some (MatValue.img t)
          else if kk = m then none else content kk) m2 = some (MatValue.mat f2)
        ∧ gi f2 = Except.ok t2 := by
      intro m2 hm2
      obtain ⟨f2, t2, hcf2, hgf2⟩ := hok m2 (by simp [hm2])
      exact ⟨f2, t2, (hrest m2 hm2).trans hcf2, hgf2⟩
    obtain ⟨final, heq, himgs, hframe⟩ := ih
      (fun kk => if kk = m ++ "_img" then some (MatValue.img t)
        else if kk = m then none else content kk)
      (tr ++ [PEvent.gen m])
      (List.nodup_cons.mp hnodup).2
      (fun a ha b hb => hfresh a (by simp [ha]) b (by simp [hb]))
      (List.pairwise_cons.mp hpair).2
      hok2
    refine ⟨final, ?_, ?_, ?_⟩
    · rw [hstep, heq]
      simp
    · intro m2 hm2
      rcases List.mem_cons.mp hm2 with rfl | hmem
      · refine ⟨f, t, hcf, hgf, ?_⟩
        have himg_notin : (m2 ++ "_img") ∉ rest := by
          intro hmem2
          exact hfresh m2 (by simp) (m2 ++ "_img") (by simp [hmem2]) rfl
        have himg_ne : ∀ m3 ∈ rest, m2 ++ "_img" ≠ m3 ++ "_img" :=
          fun m3 hm3 => (List.pairwise_cons.mp hpair).1 m3 hm3
        rw [hframe _ himg_notin himg_ne]
        simp
      · obtain ⟨f2, t2, hcf2, hgf2, hfin⟩ := himgs m2 hmem
        exact ⟨f2, t2, (hrest m2 hmem).symm.trans hcf2, hgf2, hfin⟩
    · intro kk hk hkimg
      have hk1 : kk ∉ rest := fun h => hk (by simp [h])
      have hkimg1 : ∀ m2 ∈ rest, kk ≠ m2 ++ "_img" := fun m2 h => hkimg m2 (by simp [h])
      rw [hframe kk hk1 hkimg1]
      have h1 : kk ≠ m ++ "_img" := hkimg m (by simp)
      have h2 : kk ≠ m := fun he => hk (by simp [he])
      simp only [if_neg h1, if_neg h2]

/-- C5: the image-generation pipeline executes load → transform → save.
The event trace is exactly one load, one generation per matrix name in the
fixed nine-element order, then one save; `locs_2d` is exactly
`[azim_proj e for e in locs_3d]` in order; and for each matrix name `m`,
the final content maps `m ++ "_img"` to the result of
`gen_images(locs_2d, features, 128, normalize=True)` on the features that
were loaded for `m`. -/
theorem pipeline_order_and_content
    (gd : List (ℝ × ℝ) → List ℝ → ℝ × ℝ → Option ℝ)
    (scaleFn : List ℝ → List ℝ)
    (locs3d : List (ℝ × ℝ × ℝ)) (content : String → Option (MatValue ℝ))
    (hlocs : locs3d ≠ [])
    (hmats : ∀ m ∈ matList, ∃ f, content m = some (MatValue.mat f)
      ∧ (f.headD []).length % locs3d.length = 0) :
    ∃ final,
      runPipeline gd scaleFn locs3d content
        = ([PEvent.load] ++ matList.map PEvent.gen ++ [PEvent.save],
           Except.ok (locs3d.map azim_proj, final))
      ∧ ∀ m ∈ matList, ∃ f t, content m = some (MatValue.mat f)
          ∧ gen_images gd scaleFn id (locs3d.map azim_proj) f 128 true false false
              = Except.ok t
          ∧ final (m ++ "_img") = some (MatValue.img t) := by
  have hne2 : locs3d.map azim_proj ≠ [] := by
    simpa using hlocs
  have hok : ∀ m ∈ matList, ∃ f t, content m = some (MatValue.mat f)
      ∧ gen_images gd scaleFn id (locs3d.map azim_proj) f 128 true false false
          = Except.ok t := by
    intro m hm
    obtain ⟨f, hcf, hmod⟩ := hmats m hm
    refine ⟨f, _, hcf, gen_images_eq_ok gd scaleFn id _ f 128 true false hne2 ?_⟩
    rwa [List.length_map]
  obtain ⟨final, heq, himgs, _⟩ := processMats_ok
    (fun f => gen_images gd scaleFn id (locs3d.map azim_proj) f 128 true false false)
    matList content [PEvent.load]
    (by decide) (by decide) (by decide) hok
  refine ⟨final, ?_, himgs⟩
  simp only [runPipeline, heq]

/-- Witness for C5: nine one-by-one feature matrices, one electrode, a
constant `griddata` oracle and the identity `scale` oracle. -/
theorem pipeline_order_and_content_witness :
    ∃ final,
      runPipeline (fun _ _ _ => none) id wLocs3d wContent
        = ([PEvent.load] ++ matList.map PEvent.gen ++ [PEvent.save],
           Except.ok (wLocs3d.map azim_proj, final))
      ∧ ∀ m ∈ matList, ∃ f t, wContent m = some (MatValue.mat f)
          ∧ gen_images (fun _ _ _ => none) id id (wLocs3d.map azim_proj) f 128 true false false
              = Except.ok t
          ∧ final (m ++ "_img") = some (MatValue.img t) :=
  pipeline_order_and_content (fun _ _ _ => none) id wLocs3d wContent
    (by simp [wLocs3d])
    (by
      intro m hm
      refine ⟨[[1]], ?_, ?_⟩
      · simp [wContent, hm]
      · simp [wLocs3d])
